import Mathlib

set_option maxHeartbeats 1000000
set_option maxRecDepth 8000

/- Verification development for the batch video-compression script
`mp4_to_h264_gpu_with_log.py`.

Embedding conventions:

* `parse_time`, `get_gpu_type` and the log functions are pure and embedded
  directly, keeping the source names.
* The file-system state one run can observe is a `World`: sizes (in bytes) of
  the source files in the working directory, of the destination files in the
  `compressed` folder (keyed by the source display name; the on-disk name is
  `compressed_<name>`), membership of a display name in the `skipped` folder,
  and the content of `processing_log.csv`.
* One external `ffmpeg` run on a given source behaves as an `EncodeBehavior`:
  an exit code plus the destination file it leaves behind (`none` when no file
  was written).  Behaviour is a function of the source name, which makes
  encoding deterministic across batch runs on an unchanged source.
* Sizes in MB are exact rationals, `bytes / 1024 ^ 2`.  The script divides by
  the float constant `1024 ** 2 = 2 ^ 20`; float division by a power of two
  only rescales the exponent and is exact for every representable size, so the
  rational model is exact, and the MB comparison the script makes equals the
  byte comparison (`mb_le_iff` below).  Branch conditions are therefore stated
  on bytes, and the reported MB values use `mb`.
* The two stderr-reading loops of `compress_video` touch no file state; the
  duration-scan loop is modelled separately (`durationScanAux`) because its
  termination is itself the subject of a claim.  The state semantics of
  `compress_video` below covers jobs whose duration scan exited, i.e. whose
  stderr stream carried a `Duration:` line; for a stream without one the
  program hangs in that loop and `compress_video` never returns, which the
  records for claims C4 and C6 exhibit through `durationScanAux`.
-/

/-! ### Time parsing (`parse_time`, source lines 84 to 94) -/

/-- Separator class of `re.split` in `parse_time`: the characters `:` and `.`. -/
def isTimeSep (c : Char) : Bool := c = ':' || c = '.'

/-- Python `re.split` on a one-character class: cut at every separator
occurrence, keeping empty pieces between adjacent separators. -/
def splitSep : List Char → List (List Char)
  | [] => [[]]
  | c :: t =>
    if isTimeSep c then [] :: splitSep t
    else
      match splitSep t with
      | [] => [[c]]
      | h :: r => (c :: h) :: r

/-- Value of a decimal digit character. -/
def digitVal (c : Char) : Nat := c.toNat - 48

/-- Accumulator form of the decimal parser underlying `pyNat?`. -/
def digitsValAux : Nat → List Char → Option Nat
  | acc, [] => some acc
  | acc, c :: t => if c.isDigit then digitsValAux (10 * acc + digitVal c) t else none

/-- Python `int(s)` and `float(s)` restricted to unsigned digit strings:
`some` value on a non-empty all-digit string, `none` (a Python exception)
otherwise.  The pieces `parse_time` feeds to `int`/`float` contain neither `:`
nor `.` (those were split off), and on the inputs the script meets (FFmpeg
time fields, and the claim inputs) the pieces are plain digit runs, where this
is exactly the Python behaviour; other accepted Python literal shapes (signs,
whitespace, exponent forms) are outside the modelled input space. -/
def pyNat? (l : List Char) : Option Nat :=
  match l with
  | [] => none
  | _ :: _ => digitsValAux 0 l

/-- `parse_time`: split the string on `[:.]`; with exactly 3 pieces treat it
as `MM:SS.ss` and yield `(0, MM, SS)`, with 4 or more pieces treat it as
`HH:MM:SS.ss` and yield `(HH, MM, SS)`; any `int`/`float` failure, and any
piece count below 3, yields `(0, 0, 0)`.  The seconds component used is the
piece before the dot, so the fractional digits are discarded; every component
the function can produce is consequently a whole number and is carried as a
`Nat` (the Python code carries the same values as floats). -/
def parse_time (s : String) : Nat × Nat × Nat :=
  let parts := splitSep s.data
  if parts.length = 3 then
    match pyNat? (parts.getD 0 []), pyNat? (parts.getD 1 []) with
    | some m, some sec => (0, m, sec)
    | _, _ => (0, 0, 0)
  else if 4 ≤ parts.length then
    match pyNat? (parts.getD 0 []), pyNat? (parts.getD 1 []), pyNat? (parts.getD 2 []) with
    | some hh, some m, some sec => (hh, m, sec)
    | _, _, _ => (0, 0, 0)
  else (0, 0, 0)

/-- `timedelta(hours=h, minutes=m, seconds=s).total_seconds()` (source lines
171 to 172 and 189 to 190): exact on the whole-second values `parse_time`
produces. -/
def totalSeconds (h m s : Nat) : ℚ := ((3600 * h + 60 * m + s : Nat) : ℚ)

/-- The seconds value the script derives from a time string. -/
def parseTimeSeconds (s : String) : ℚ :=
  totalSeconds (parse_time s).1 (parse_time s).2.1 (parse_time s).2.2

/-- Decimal value of a digit run (specification-side description of what
`int` returns on it). -/
def digitsToNat (l : List Char) : Nat := l.foldl (fun a c => 10 * a + digitVal c) 0

/-! ### Substring search and `get_gpu_type` (source lines 96 to 112) -/

/-- Boolean initial-segment test on character lists. -/
def isPrefL : List Char → List Char → Bool
  | [], _ => true
  | _ :: _, [] => false
  | a :: as, b :: bs => a == b && isPrefL as bs

/-- Python `needle in hay` on strings: substring containment. -/
def containsSub (needle : List Char) : List Char → Bool
  | [] => isPrefL needle []
  | c :: t => isPrefL needle (c :: t) || containsSub needle t

/-- Python `str.lower()`; ASCII case mapping, which covers every encoder
identifier the probe searches for. -/
def toLowerStr (s : String) : String := String.mk (s.data.map Char.toLower)

/-- `get_gpu_type`: run `ffmpeg -encoders` (argument `none` means the
invocation raised), lower-case the captured output and return the first of
`nvidia`, `amd`, `intel` whose encoder identifier occurs as a substring, else
`cpu`; every failure path also returns `cpu`. -/
def get_gpu_type (probeOut : Option String) : String :=
  match probeOut with
  | none => "cpu"
  | some out =>
    let encoders := toLowerStr out
    if containsSub "nvenc".data encoders.data then "nvidia"
    else if containsSub "amf".data encoders.data then "amd"
    else if containsSub "qsv".data encoders.data then "intel"
    else "cpu"

/-! ### The duration-scan loop (source lines 165 to 173) -/

/-- `process.stderr.readline()` as the duration scan sees it: `lines` are all
lines the process ever writes; after they are exhausted (EOF) `readline`
returns the empty string on every further call. -/
def readlineAt (lines : List String) (i : Nat) : String := lines.getD i ""

/-- The only break condition of the duration-scan loop: `'Duration:' in line`. -/
def hasDurationMarker (line : String) : Bool :=
  containsSub "Duration:".data line.data

/-- The `while True` duration-scan loop, reading from line index `i`, unrolled
for `fuel` iterations: `some line` when it breaks on `line` within `fuel`
reads, `none` when it is still running after `fuel` reads.  The loop body has
no other exit, so `∀ fuel, durationScanAux lines i fuel = none` states that
the loop never terminates on that stream. -/
def durationScanAux (lines : List String) : Nat → Nat → Option String
  | _, 0 => none
  | i, fuel + 1 =>
    if hasDurationMarker (readlineAt lines i) then some (readlineAt lines i)
    else durationScanAux lines (i + 1) fuel

/-! ### File-system state, log, and `compress_video` -/

/-- Exit status and written destination file of one external encoder run. -/
structure EncodeBehavior where
  exitCode : Int
  outBytes : Option Nat

/-- Which branch of `compress_video` produced a result (the outcome taxonomy
of the specification; the script communicates it through the returned triple
and the file-system effects). -/
inductive Outcome
  | compressed
  | skippedIneffective
  | skippedAlready
  | failed
deriving DecidableEq

/-- The triple `(original_size, compressed_size, skipped)` returned by
`compress_video`, sizes in MB, tagged with the branch that produced it. -/
structure JobResult where
  orig : ℚ
  compr : ℚ
  skipped : Bool
  outcome : Outcome

/-- One CSV data row as written by `log_to_csv`. -/
structure LogRow where
  filename : String
  origMB : ℚ
  comprMB : ℚ
  ratioPct : ℚ
  skippedFlag : Bool

/-- One line of `processing_log.csv`: the fixed header or a data row. -/
inductive LogEntry
  | headerRow
  | dataRow (r : LogRow)

/-- File-system and log state visible to the batch, keyed by display name
(the input folder is the working directory, so display name, `input_path`
basename and key coincide).  `src n` is the size of the source file, `dst n`
the size of `compressed/compressed_<n>`, `skipArea n` says whether
`skipped/<n>` exists, `logFile` is the CSV content (`none` = file absent),
and `encodeCalls` records each launch of the external encoder (source line
157), in order. -/
structure World where
  src : String → Option Nat
  dst : String → Option Nat
  skipArea : String → Bool
  logFile : Option (List LogEntry)
  encodeCalls : List String

/-- `os.path.getsize(p) / (1024 ** 2)`: exact size in MB. -/
def mb (bytes : Nat) : ℚ := (bytes : ℚ) / (1024 ^ 2)

/-- `round(x, 2)` as used by `log_to_csv`, on exact rationals (Python rounds
floats half-to-even; no claim depends on the rounding mode, only on which
rows exist, so half-up is used here). -/
def round2 (q : ℚ) : ℚ := ((⌊q * 100 + 1 / 2⌋ : ℤ) : ℚ) / 100

/-- `init_log_file` (source lines 55 to 66): create the CSV with the header
row only when the file does not exist; an existing file is left untouched. -/
def init_log_file (f : Option (List LogEntry)) : Option (List LogEntry) :=
  match f with
  | none => some [LogEntry.headerRow]
  | some l => some l

/-- Append one entry to the log file; append mode creates a missing file. -/
def appendEntry (f : Option (List LogEntry)) (e : LogEntry) : Option (List LogEntry) :=
  match f with
  | none => some [e]
  | some l => some (l ++ [e])

/-- `log_to_csv` (source lines 68 to 82): compute the compression ratio,
guarded by `orig_size > 0`, and append one data row. -/
def log_to_csv (w : World) (filename : String) (orig compr : ℚ) (skipped : Bool) : World :=
  { w with logFile := appendEntry w.logFile (LogEntry.dataRow
      ⟨filename, round2 orig, round2 compr,
       round2 (if 0 < orig then 100 - compr / orig * 100 else 0), skipped⟩) }

/-- The `except` block of `compress_video` (source lines 209 to 214): remove
the destination file if it exists, then relocate the source file into the
skipped area if it is still present. -/
def cleanupOnError (w : World) (n : String) : World :=
  let w1 : World := { w with dst := fun m => if m = n then none else w.dst m }
  match w1.src n with
  | none => w1
  | some _ =>
    { w1 with src := fun m => if m = n then none else w1.src m,
              skipArea := fun m => if m = n then true else w1.skipArea m }

/-- `compress_video` (source lines 118 to 215) acting on the state at display
name `n`, with `env n` the behaviour of the external encoder on that source.
Branches in source order: a missing source raises `FileNotFoundError`
(handled by the `except` block, `cleanupOnError`); a name already present in
the skipped area returns `(0, 0, True)` with no file-system effect; otherwise
the encoder is launched (recorded in `encodeCalls`; the destination file
becomes whatever the process wrote), a non-zero exit raises `RuntimeError`, a
missing destination file makes `os.path.getsize(output_path)` raise an
`OSError`, an ineffective result (destination size at least the original
size; the script compares the two sizes in MB, which by `mb_le_iff` is the
byte comparison used here) removes the destination and relocates the source
into the skipped area returning both sizes equal to the original, and an
effective result returns both sizes with `skipped = False`. -/
def compress_video (env : String → EncodeBehavior) (n : String) (w : World) :
    World × JobResult :=
  match w.src n with
  | none => (cleanupOnError w n, ⟨0, 0, true, Outcome.failed⟩)
  | some b =>
    if w.skipArea n then (w, ⟨0, 0, true, Outcome.skippedAlready⟩)
    else
      let e := env n
      let w1 : World := { w with
        dst := fun m => if m = n then e.outBytes else w.dst m,
        encodeCalls := w.encodeCalls ++ [n] }
      if e.exitCode ≠ 0 then (cleanupOnError w1 n, ⟨mb b, 0, true, Outcome.failed⟩)
      else
        match e.outBytes with
        | none => (cleanupOnError w1 n, ⟨mb b, 0, true, Outcome.failed⟩)
        | some cb =>
          if b ≤ cb then
            ({ w1 with
                dst := fun m => if m = n then none else w1.dst m,
                src := fun m => if m = n then none else w1.src m,
                skipArea := fun m => if m = n then true else w1.skipArea m },
             ⟨mb b, mb b, true, Outcome.skippedIneffective⟩)
          else (w1, ⟨mb b, mb cb, false, Outcome.compressed⟩)

/-- One iteration of the main loop (source lines 253 to 288): a name already
present in the skipped area only advances the total progress bar; otherwise
the file is compressed and the result row is logged.  `compress_video`
converts every per-file exception into a returned result and `log_to_csv`
swallows its own write errors, so the embedded loop body is total. -/
def processFile (env : String → EncodeBehavior) (w : World) (n : String) : World :=
  if w.skipArea n then w
  else
    let p := compress_video env n w
    log_to_csv p.1 n p.2.orig p.2.compr p.2.skipped

/-- The main loop over the enumerated candidate files. -/
def runBatch (env : String → EncodeBehavior) (names : List String) (w : World) : World :=
  names.foldl (processFile env) w

/-- Directory enumeration (source lines 231 to 233) relative to a fixed
universe `names` of candidate names (the names matching the `.mp4`
suffix and lacking the `compressed_` prefix): the candidates currently
present in the working directory.  Outputs live in the `compressed` subfolder
and are never enumerated. -/
def enumFiles (names : List String) (w : World) : List String :=
  names.filter (fun n => (w.src n).isSome)

/-- `main` (source lines 221 to 288): initialise folders and the log file,
enumerate the candidates, and run the loop over them. -/
def runBatchFull (env : String → EncodeBehavior) (names : List String) (w : World) : World :=
  runBatch env (enumFiles names w) { w with logFile := init_log_file w.logFile }

/-- Count of header lines in a log. -/
def countHeader (l : List LogEntry) : Nat :=
  l.countP fun e => match e with | LogEntry.headerRow => true | _ => false

/-- The error conditions of one job that the script can meet after the
skip-area test: vanished source (`FileNotFoundError`), non-zero encoder exit
(`RuntimeError`), and a clean exit that left no destination file, where the
size measurement raises (`OSError`). -/
def errorCondition (env : String → EncodeBehavior) (w : World) (n : String) : Prop :=
  w.src n = none ∨ (env n).exitCode ≠ 0 ∨
    ((env n).exitCode = 0 ∧ (env n).outBytes = none)

/-- The three file-system components of the state at one display name. -/
def vals (w : World) (n : String) : Option Nat × Option Nat × Bool :=
  (w.src n, w.dst n, w.skipArea n)

/-- The effect of `processFile` on the state at the processed name, as a pure
step on that state (`processFile_vals` below). -/
def stepVals (e : EncodeBehavior) :
    Option Nat × Option Nat × Bool → Option Nat × Option Nat × Bool
  | (s, d, k) =>
    if k then (s, d, k)
    else
      match s with
      | none => (none, none, false)
      | some b =>
        if e.exitCode ≠ 0 then (none, none, true)
        else
          match e.outBytes with
          | none => (none, none, true)
          | some cb => if b ≤ cb then (none, none, true) else (some b, some cb, false)

/-- A name whose state the next processing step would leave unchanged. -/
def settledAt (env : String → EncodeBehavior) (w : World) (n : String) : Prop :=
  stepVals (env n) (vals w n) = vals w n

/-- The MB comparison the script makes is the byte comparison: `mb` is an
order embedding. -/
theorem mb_le_iff (b cb : Nat) : mb b ≤ mb cb ↔ b ≤ cb := by
  unfold mb
  rw [div_le_div_iff_of_pos_right (by norm_num : (0 : ℚ) < 1024 ^ 2)]
  exact_mod_cast Iff.rfl

/-- `mb` of any byte count is non-negative. -/
theorem mb_nonneg (b : Nat) : 0 ≤ mb b := by
  unfold mb
  positivity

/-- `mb` is strictly monotone: the MB strict comparison is the byte one. -/
theorem mb_lt_iff (a b : Nat) : mb a < mb b ↔ a < b := by
  unfold mb
  rw [div_lt_div_iff_of_pos_right (by norm_num : (0 : ℚ) < 1024 ^ 2)]
  exact_mod_cast Iff.rfl

/-- `mb 0 = 0`. -/
theorem mb_zero : mb 0 = 0 := by
  simp [mb]

/-! ### Lemmas about `splitSep` and digit parsing -/

/-- `splitSep` always yields at least one piece. -/
theorem splitSep_ne_nil (l : List Char) : splitSep l ≠ [] := by
  cases l with
  | nil => simp [splitSep]
  | cons c t =>
    by_cases hc : isTimeSep c
    · simp [splitSep, hc]
    · cases h : splitSep t with
      | nil => simp [splitSep, hc, h]
      | cons x xs => simp [splitSep, hc, h]

/-- A separator-free string is one piece. -/
theorem splitSep_sepfree (a : List Char) (ha : ∀ x ∈ a, isTimeSep x = false) :
    splitSep a = [a] := by
  induction a with
  | nil => rfl
  | cons c t ih =>
    have hc : isTimeSep c = false := ha c (List.mem_cons_self c t)
    have ht : splitSep t = [t] := ih fun x hx => ha x (List.mem_cons_of_mem c hx)
    simp [splitSep, hc, ht]

/-- Splitting cuts at the first separator after a separator-free piece. -/
theorem splitSep_append (a : List Char) (ha : ∀ x ∈ a, isTimeSep x = false)
    (c : Char) (hc : isTimeSep c = true) (t : List Char) :
    splitSep (a ++ c :: t) = a :: splitSep t := by
  induction a with
  | nil => simp [splitSep, hc]
  | cons x xs ih =>
    have hx : isTimeSep x = false := ha x (List.mem_cons_self x xs)
    have ih' : splitSep (xs ++ c :: t) = xs :: splitSep t :=
      ih fun y hy => ha y (List.mem_cons_of_mem x hy)
    simp [splitSep, hx, ih']

/-- The accumulator parser succeeds on all-digit runs, with the folded value. -/
theorem digitsValAux_digits (l : List Char) (hl : ∀ x ∈ l, x.isDigit = true) :
    ∀ acc, digitsValAux acc l = some (l.foldl (fun a c => 10 * a + digitVal c) acc) := by
  induction l with
  | nil => intro acc; rfl
  | cons c t ih =>
    intro acc
    have hc : c.isDigit = true := hl c (List.mem_cons_self c t)
    have ih' := ih fun x hx => hl x (List.mem_cons_of_mem c hx)
    simp [digitsValAux, hc, ih']

/-- `pyNat?` succeeds on non-empty digit runs with the decimal value. -/
theorem pyNat?_digits (l : List Char) (h0 : l ≠ []) (hl : ∀ x ∈ l, x.isDigit = true) :
    pyNat? l = some (digitsToNat l) := by
  cases l with
  | nil => exact absurd rfl h0
  | cons c t =>
    simpa [pyNat?, digitsToNat] using digitsValAux_digits (c :: t) hl 0

/-- Decimal digits are not time separators. -/
theorem digit_not_sep (x : Char) (hx : x.isDigit = true) : isTimeSep x = false := by
  by_cases h1 : x = ':'
  · subst h1; exact absurd hx (by decide)
  · by_cases h2 : x = '.'
    · subst h2; exact absurd hx (by decide)
    · simp [isTimeSep, h1, h2]

/-- Well-shaped time strings per the specification reading: the split yields
exactly 3 pieces, or at least 4 pieces, and the pieces the script converts
are numeric. -/
def wellFormedTime (s : String) : Bool :=
  let parts := splitSep s.data
  (parts.length == 3 && (pyNat? (parts.getD 0 [])).isSome
      && (pyNat? (parts.getD 1 [])).isSome)
  || (decide (4 ≤ parts.length) && (pyNat? (parts.getD 0 [])).isSome
      && (pyNat? (parts.getD 1 [])).isSome && (pyNat? (parts.getD 2 [])).isSome)

/-- Claim C5, counterexample: the claim states that the parser keeps the
fractional part and that `"00:01:30.50"` parses to 90.5 seconds; the code
discards the fractional digits (they are split off by the dot and never read)
and produces 90 seconds. -/
theorem claim_C5_ce :
    parseTimeSeconds "00:01:30.50" = 90 ∧ parseTimeSeconds "00:01:30.50" ≠ 90.5 := by
  have h : parse_time "00:01:30.50" = (0, 1, 30) := by decide
  constructor
  · norm_num [parseTimeSeconds, h, totalSeconds]
  · norm_num [parseTimeSeconds, h, totalSeconds]

/-- Claim C5, amended: for every valid time string of shape `HH:MM:SS.ss` or
`MM:SS.ss` (digit-run components), the time parser returns the arithmetic
expansion with standard hour/minute/second weighting applied to the whole
components, with the fractional seconds digits discarded; in particular
`"00:01:30.50"` parses to 90.0 seconds and `"02:15.00"` to 135.0 seconds. -/
theorem claim_C5 :
    (∀ a b c d : List Char, a ≠ [] → b ≠ [] → c ≠ [] →
      (∀ x ∈ a, x.isDigit = true) → (∀ x ∈ b, x.isDigit = true) →
      (∀ x ∈ c, x.isDigit = true) →
      parseTimeSeconds (String.mk (a ++ ':' :: (b ++ ':' :: (c ++ '.' :: d)))) =
        ((3600 * digitsToNat a + 60 * digitsToNat b + digitsToNat c : Nat) : ℚ))
    ∧ (∀ a b c : List Char, a ≠ [] → b ≠ [] →
      (∀ x ∈ a, x.isDigit = true) → (∀ x ∈ b, x.isDigit = true) →
      (∀ x ∈ c, x.isDigit = true) →
      parseTimeSeconds (String.mk (a ++ ':' :: (b ++ '.' :: c))) =
        ((60 * digitsToNat a + digitsToNat b : Nat) : ℚ))
    ∧ parseTimeSeconds "00:01:30.50" = 90
    ∧ parseTimeSeconds "02:15.00" = 135 := by
  refine ⟨?_, ?_, ?_, ?_⟩
  · intro a b c d ha0 hb0 hc0 ha hb hc
    have sa : ∀ x ∈ a, isTimeSep x = false := fun x hx => digit_not_sep x (ha x hx)
    have sb : ∀ x ∈ b, isTimeSep x = false := fun x hx => digit_not_sep x (hb x hx)
    have sc : ∀ x ∈ c, isTimeSep x = false := fun x hx => digit_not_sep x (hc x hx)
    have hsplit : splitSep (a ++ ':' :: (b ++ ':' :: (c ++ '.' :: d)))
        = a :: b :: c :: splitSep d := by
      rw [splitSep_append a sa ':' (by decide), splitSep_append b sb ':' (by decide),
          splitSep_append c sc '.' (by decide)]
    have hpos : 0 < (splitSep d).length :=
      List.length_pos.mpr (splitSep_ne_nil d)
    have hlen : (a :: b :: c :: splitSep d).length = 3 + (splitSep d).length := by
      simp; omega
    unfold parseTimeSeconds parse_time
    rw [show (String.mk (a ++ ':' :: (b ++ ':' :: (c ++ '.' :: d)))).data
          = a ++ ':' :: (b ++ ':' :: (c ++ '.' :: d)) from rfl, hsplit]
    rw [if_neg (by omega : ¬ (a :: b :: c :: splitSep d).length = 3),
        if_pos (by omega : 4 ≤ (a :: b :: c :: splitSep d).length)]
    simp [pyNat?_digits a ha0 ha, pyNat?_digits b hb0 hb, pyNat?_digits c hc0 hc,
      totalSeconds]
  · intro a b c ha0 hb0 ha hb hc
    have sa : ∀ x ∈ a, isTimeSep x = false := fun x hx => digit_not_sep x (ha x hx)
    have sb : ∀ x ∈ b, isTimeSep x = false := fun x hx => digit_not_sep x (hb x hx)
    have sc : ∀ x ∈ c, isTimeSep x = false := fun x hx => digit_not_sep x (hc x hx)
    have hsplit : splitSep (a ++ ':' :: (b ++ '.' :: c)) = a :: b :: [c] := by
      rw [splitSep_append a sa ':' (by decide), splitSep_append b sb '.' (by decide),
          splitSep_sepfree c sc]
    unfold parseTimeSeconds parse_time
    rw [show (String.mk (a ++ ':' :: (b ++ '.' :: c))).data
          = a ++ ':' :: (b ++ '.' :: c) from rfl, hsplit]
    rw [if_pos (by simp : ([a, b, c] : List (List Char)).length = 3)]
    simp [pyNat?_digits a ha0 ha, pyNat?_digits b hb0 hb, totalSeconds]
  · exact claim_C5_ce.1
  · have h : parse_time "02:15.00" = (0, 2, 15) := by decide
    norm_num [parseTimeSeconds, h, totalSeconds]

/-- Claim C5 witness: the amended statement evaluated at `"02:15.00"` given as
its component digit runs. -/
theorem claim_C5_w :
    parseTimeSeconds (String.mk (['0', '2'] ++ ':' :: (['1', '5'] ++ '.' :: ['0', '0']))) =
      ((60 * digitsToNat ['0', '2'] + digitsToNat ['1', '5'] : Nat) : ℚ) :=
  claim_C5.2.1 ['0', '2'] ['1', '5'] ['0', '0'] (by decide) (by decide)
    (by decide) (by decide) (by decide)

/-- Claim C7: for every malformed time string — one whose split does not give
the 3 or at-least-4 numeric pieces the two shapes produce — `parse_time`
yields the zero triple and hence a zero-duration result, without raising
(the embedded function is total: the Python `except` arm and the
fall-through both return zeros); in particular `"abc"` yields 0 seconds. -/
theorem claim_C7 :
    (∀ s : String, wellFormedTime s = false → parseTimeSeconds s = 0)
    ∧ parseTimeSeconds "abc" = 0 ∧ wellFormedTime "abc" = false := by
  refine ⟨?_, ?_, by decide⟩
  · intro s h
    unfold parseTimeSeconds parse_time
    by_cases h3 : (splitSep s.data).length = 3
    · rw [if_pos h3]
      cases hp0 : pyNat? ((splitSep s.data).getD 0 []) with
      | none => cases hp1 : pyNat? ((splitSep s.data).getD 1 []) <;>
          simp [totalSeconds]
      | some m =>
        cases hp1 : pyNat? ((splitSep s.data).getD 1 []) with
        | none => simp [totalSeconds]
        | some sec =>
          have ht : wellFormedTime s = true := by
            simp only [wellFormedTime]
            rw [hp0, hp1]
            simp [h3]
          rw [ht] at h
          exact Bool.noConfusion h
    · rw [if_neg h3]
      by_cases h4 : 4 ≤ (splitSep s.data).length
      · rw [if_pos h4]
        cases hp0 : pyNat? ((splitSep s.data).getD 0 []) with
        | none => cases hp1 : pyNat? ((splitSep s.data).getD 1 []) <;>
            cases hp2 : pyNat? ((splitSep s.data).getD 2 []) <;> simp [totalSeconds]
        | some a0 =>
          cases hp1 : pyNat? ((splitSep s.data).getD 1 []) with
          | none => cases hp2 : pyNat? ((splitSep s.data).getD 2 []) <;>
              simp [totalSeconds]
          | some a1 =>
            cases hp2 : pyNat? ((splitSep s.data).getD 2 []) with
            | none => simp [totalSeconds]
            | some a2 =>
              have ht : wellFormedTime s = true := by
                simp only [wellFormedTime]
                rw [hp0, hp1, hp2]
                simp [h3, h4]
              rw [ht] at h
              exact Bool.noConfusion h
      · rw [if_neg h4]
        simp [totalSeconds]
  · have h : parse_time "abc" = (0, 0, 0) := by decide
    simp [parseTimeSeconds, h, totalSeconds]

/-- Claim C7 witness: the malformed-input statement applied at `"abc"`. -/
theorem claim_C7_w : parseTimeSeconds "abc" = 0 :=
  claim_C7.1 "abc" (by decide)

/-- On a stream none of whose lines carries the `Duration:` marker, the
duration-scan loop is still running after any number of reads: once the
finite stream is exhausted, `readline` keeps returning the empty string,
which carries no marker either, so the only break condition never fires. -/
theorem durationScan_no_marker :
    ∀ lines : List String, (∀ l ∈ lines, hasDurationMarker l = false) →
      ∀ fuel i, durationScanAux lines i fuel = none := by
  intro lines h fuel
  induction fuel with
  | zero => intro i; rfl
  | succ k ih =>
    intro i
    have hm : hasDurationMarker (readlineAt lines i) = false := by
      unfold readlineAt
      rcases Nat.lt_or_ge i lines.length with hlt | hge
      · rw [List.getD_eq_getElem lines "" hlt]
        exact h _ (List.getElem_mem hlt)
      · rw [List.getD_eq_default lines "" hge]
        decide
    simp [durationScanAux, hm, ih]

/-- Claim C6 (behaviour the code actually has, exhibited at the failing
inputs): the duration-scan loop reads lines and breaks only when a line
contains `Duration:`.  When the stream reaches end-of-stream without such a
marker, `readline` returns the empty string forever and the loop never
terminates — for every iteration bound the loop is still running — contrary
to the claimed termination with an unknown duration.  The last conjunct shows
the loop does break as soon as a marker line arrives. -/
theorem claim_C6 :
    (∀ lines : List String, (∀ l ∈ lines, hasDurationMarker l = false) →
      ∀ fuel i, durationScanAux lines i fuel = none)
    ∧ durationScanAux [] 0 100 = none
    ∧ durationScanAux ["  Duration: 00:01:30.50, start: 0.000000, bitrate: 1404 kb/s"] 0 5
        = some "  Duration: 00:01:30.50, start: 0.000000, bitrate: 1404 kb/s" :=
  ⟨durationScan_no_marker, by decide, by decide⟩

/-- Claim C6 witness: the no-marker statement applied to a concrete ended
stream (a process that only wrote one progress line and exited). -/
theorem claim_C6_w : durationScanAux ["frame=  1 time=00:00:01.00"] 0 7 = none :=
  claim_C6.1 ["frame=  1 time=00:00:01.00"] (by decide) 7 0

/-- Claim C8: the encoder-capability probe inspects the (lower-cased)
encoder-listing output for the known hardware identifiers and returns the
first match in the fixed priority order nvidia, then amd, then intel, then
the software fallback; a failed invocation (argument `none`) returns the
software fallback, so detection failure is never fatal. -/
theorem claim_C8 :
    get_gpu_type none = "cpu"
    ∧ (∀ s, containsSub "nvenc".data (toLowerStr s).data = true →
        get_gpu_type (some s) = "nvidia")
    ∧ (∀ s, containsSub "nvenc".data (toLowerStr s).data = false →
        containsSub "amf".data (toLowerStr s).data = true →
        get_gpu_type (some s) = "amd")
    ∧ (∀ s, containsSub "nvenc".data (toLowerStr s).data = false →
        containsSub "amf".data (toLowerStr s).data = false →
        containsSub "qsv".data (toLowerStr s).data = true →
        get_gpu_type (some s) = "intel")
    ∧ (∀ s, containsSub "nvenc".data (toLowerStr s).data = false →
        containsSub "amf".data (toLowerStr s).data = false →
        containsSub "qsv".data (toLowerStr s).data = false →
        get_gpu_type (some s) = "cpu") := by
  refine ⟨rfl, ?_, ?_, ?_, ?_⟩
  · intro s h1
    simp [get_gpu_type, h1]
  · intro s h1 h2
    simp [get_gpu_type, h1, h2]
  · intro s h1 h2 h3
    simp [get_gpu_type, h1, h2, h3]
  · intro s h1 h2 h3
    simp [get_gpu_type, h1, h2, h3]

/-- Claim C8 witness: the nvidia and amd cases evaluated on concrete listing
outputs. -/
theorem claim_C8_w :
    get_gpu_type (some "V..... h264_NVENC   NVIDIA NVENC H.264 encoder") = "nvidia"
    ∧ get_gpu_type (some "V..... h264_amf    AMD AMF H.264 encoder") = "amd" :=
  ⟨claim_C8.2.1 "V..... h264_NVENC   NVIDIA NVENC H.264 encoder" (by decide),
   claim_C8.2.2.1 "V..... h264_amf    AMD AMF H.264 encoder" (by decide) (by decide)⟩

/-! ### Per-job claims about `compress_video` -/

/-- Claim C1: with a clean exit and destination size at least the original
size (compared in MB, as the script does), the job removes the destination
file, relocates the source into the skipped area under its display name, and
returns the ineffective-skip outcome with `skipped = True` and both reported
sizes equal to the original size. -/
theorem claim_C1 : ∀ (env : String → EncodeBehavior) (w : World) (n : String) (b cb : Nat),
    w.src n = some b → w.skipArea n = false →
    (env n).exitCode = 0 → (env n).outBytes = some cb → mb b ≤ mb cb →
    ((compress_video env n w).1.dst n = none)
    ∧ ((compress_video env n w).1.src n = none)
    ∧ ((compress_video env n w).1.skipArea n = true)
    ∧ (compress_video env n w).2 =
        ⟨mb b, mb b, true, Outcome.skippedIneffective⟩ := by
  intro env w n b cb hs hk he ho hle
  have hbc : b ≤ cb := (mb_le_iff b cb).mp hle
  simp [compress_video, hs, hk, he, ho, hbc]

/-- Claim C2: a non-zero exit status of the external process is treated as an
encoding failure: the job removes any destination file it left (none remains
in the output directory for this job) and relocates the still-present source
into the skipped area; the result is the failure outcome with
`skipped = True`. -/
theorem claim_C2 : ∀ (env : String → EncodeBehavior) (w : World) (n : String) (b : Nat),
    w.src n = some b → w.skipArea n = false → (env n).exitCode ≠ 0 →
    ((compress_video env n w).1.dst n = none)
    ∧ ((compress_video env n w).1.src n = none)
    ∧ ((compress_video env n w).1.skipArea n = true)
    ∧ ((compress_video env n w).2.outcome = Outcome.failed)
    ∧ ((compress_video env n w).2.skipped = true) := by
  intro env w n b hs hk he
  simp [compress_video, hs, hk, he, cleanupOnError]

/-- Claim C10: whenever `compress_video` returns `skipped = False` the
reported original size is strictly positive, the compressed size is
non-negative and strictly below the original, and in particular the
original size is non-zero, so the unguarded division `compr_size/orig_size`
on the success path of `main` never divides by zero. -/
theorem claim_C10 : ∀ (env : String → EncodeBehavior) (w : World) (n : String),
    (compress_video env n w).2.skipped = false →
    0 < (compress_video env n w).2.orig
    ∧ 0 ≤ (compress_video env n w).2.compr
    ∧ (compress_video env n w).2.compr < (compress_video env n w).2.orig
    ∧ (compress_video env n w).2.orig ≠ 0 := by
  intro env w n h
  cases hs : w.src n with
  | none => simp [compress_video, hs] at h
  | some b =>
    by_cases hk : w.skipArea n
    · simp [compress_video, hs, hk] at h
    · by_cases he : (env n).exitCode ≠ 0
      · simp [compress_video, hs, hk, he] at h
      · cases ho : (env n).outBytes with
        | none => simp [compress_video, hs, hk, he, ho] at h
        | some cb =>
          by_cases hbc : b ≤ cb
          · simp [compress_video, hs, hk, he, ho, hbc] at h
          · have hlt : cb < b := Nat.lt_of_not_le hbc
            have h2 : (compress_video env n w).2 =
                ⟨mb b, mb cb, false, Outcome.compressed⟩ := by
              simp [compress_video, hs, hk, he, ho, hbc]
            rw [h2]
            refine ⟨?_, mb_nonneg cb, ?_, ?_⟩
            · have := (mb_lt_iff 0 b).mpr (Nat.lt_of_le_of_lt (Nat.zero_le cb) hlt)
              rwa [mb_zero] at this
            · exact (mb_lt_iff cb b).mpr hlt
            · have := (mb_lt_iff 0 b).mpr (Nat.lt_of_le_of_lt (Nat.zero_le cb) hlt)
              rw [mb_zero] at this
              exact ne_of_gt this

/-! ### Concrete environments and worlds for the witnesses -/

/-- An encoder that succeeds and writes a 1 MB destination file. -/
def envEff : String → EncodeBehavior := fun _ => ⟨0, some 1048576⟩

/-- An encoder that succeeds but writes a destination as large as the 3 MB
source. -/
def envSame : String → EncodeBehavior := fun _ => ⟨0, some 3145728⟩

/-- An encoder that exits with status 1. -/
def envFail : String → EncodeBehavior := fun _ => ⟨1, some 555⟩

/-- A world holding one 3 MB source file, nothing else. -/
def wEff : World :=
  { src := fun _ => some 3145728, dst := fun _ => none, skipArea := fun _ => false,
    logFile := some [LogEntry.headerRow], encodeCalls := [] }

/-- A world whose every display name is already present in the skipped area. -/
def wSkip : World :=
  { src := fun _ => some 3145728, dst := fun _ => none, skipArea := fun _ => true,
    logFile := some [LogEntry.headerRow], encodeCalls := [] }

/-- Claim C1 witness: the ineffective-compression statement evaluated on a
concrete world where the destination equals the original size. -/
theorem claim_C1_w :
    ((compress_video envSame "a.mp4" wEff).1.dst "a.mp4" = none)
    ∧ ((compress_video envSame "a.mp4" wEff).1.src "a.mp4" = none)
    ∧ ((compress_video envSame "a.mp4" wEff).1.skipArea "a.mp4" = true)
    ∧ (compress_video envSame "a.mp4" wEff).2 =
        ⟨mb 3145728, mb 3145728, true, Outcome.skippedIneffective⟩ :=
  claim_C1 envSame wEff "a.mp4" 3145728 3145728 rfl rfl rfl rfl (le_refl _)

/-- Claim C2 witness: the non-zero-exit statement on a concrete world. -/
theorem claim_C2_w :
    ((compress_video envFail "a.mp4" wEff).1.dst "a.mp4" = none)
    ∧ ((compress_video envFail "a.mp4" wEff).1.src "a.mp4" = none)
    ∧ ((compress_video envFail "a.mp4" wEff).1.skipArea "a.mp4" = true)
    ∧ ((compress_video envFail "a.mp4" wEff).2.outcome = Outcome.failed)
    ∧ ((compress_video envFail "a.mp4" wEff).2.skipped = true) :=
  claim_C2 envFail wEff "a.mp4" 3145728 rfl rfl (by decide)

/-- Claim C10 witness: the positive-size statement on a concrete effective
job (3 MB source compressed to 1 MB). -/
theorem claim_C10_w :
    0 < (compress_video envEff "a.mp4" wEff).2.orig
    ∧ 0 ≤ (compress_video envEff "a.mp4" wEff).2.compr
    ∧ (compress_video envEff "a.mp4" wEff).2.compr
        < (compress_video envEff "a.mp4" wEff).2.orig
    ∧ (compress_video envEff "a.mp4" wEff).2.orig ≠ 0 :=
  claim_C10 envEff wEff "a.mp4" (by decide)

/-! ### State-step lemmas for the batch loop -/

/-- The state at the processed name after one loop iteration is `stepVals` of
the state before it. -/
theorem processFile_vals (env : String → EncodeBehavior) (w : World) (n : String) :
    vals (processFile env w n) n = stepVals (env n) (vals w n) := by
  by_cases hk : w.skipArea n
  · simp [processFile, vals, stepVals, hk]
  · cases hs : w.src n with
    | none =>
      simp [processFile, compress_video, cleanupOnError, log_to_csv, vals, stepVals, hk, hs]
    | some b =>
      by_cases he : (env n).exitCode ≠ 0
      · simp [processFile, compress_video, cleanupOnError, log_to_csv, vals, stepVals,
          hk, hs, he]
      · cases ho : (env n).outBytes with
        | none =>
          simp [processFile, compress_video, cleanupOnError, log_to_csv, vals, stepVals,
            hk, hs, he, ho]
        | some cb =>
          by_cases hbc : b ≤ cb
          · simp [processFile, compress_video, cleanupOnError, log_to_csv, vals, stepVals,
              hk, hs, he, ho, hbc]
          · simp [processFile, compress_video, log_to_csv, vals, stepVals,
              hk, hs, he, ho, hbc]

/-- One loop iteration leaves the state at every other name unchanged. -/
theorem processFile_vals_ne (env : String → EncodeBehavior) (w : World) (n m : String)
    (hm : m ≠ n) : vals (processFile env w n) m = vals w m := by
  by_cases hk : w.skipArea n
  · simp [processFile, vals, hk]
  · cases hs : w.src n with
    | none =>
      simp [processFile, compress_video, cleanupOnError, log_to_csv, vals, hk, hs, hm]
    | some b =>
      by_cases he : (env n).exitCode ≠ 0
      · simp [processFile, compress_video, cleanupOnError, log_to_csv, vals, hk, hs, he, hm]
      · cases ho : (env n).outBytes with
        | none =>
          simp [processFile, compress_video, cleanupOnError, log_to_csv, vals,
            hk, hs, he, ho, hm]
        | some cb =>
          by_cases hbc : b ≤ cb
          · simp [processFile, compress_video, cleanupOnError, log_to_csv, vals,
              hk, hs, he, ho, hbc, hm]
          · simp [processFile, compress_video, log_to_csv, vals, hk, hs, he, ho, hbc, hm]

/-- `stepVals` is idempotent: once processed, a second pass changes nothing. -/
theorem stepVals_idem (e : EncodeBehavior) (v : Option Nat × Option Nat × Bool) :
    stepVals e (stepVals e v) = stepVals e v := by
  obtain ⟨s, d, k⟩ := v
  cases k with
  | true => simp [stepVals]
  | false =>
    cases s with
    | none => simp [stepVals]
    | some b =>
      by_cases he : e.exitCode ≠ 0
      · simp [stepVals, he]
      · cases ho : e.outBytes with
        | none => simp [stepVals, he, ho]
        | some cb =>
          by_cases hbc : b ≤ cb
          · simp [stepVals, he, ho, hbc]
          · simp [stepVals, he, ho, hbc]

/-- After processing a name once, that name is settled. -/
theorem settledAt_processFile (env : String → EncodeBehavior) (w : World) (n : String) :
    settledAt env (processFile env w n) n := by
  unfold settledAt
  rw [processFile_vals]
  exact stepVals_idem _ _

/-- Settledness only depends on the state at the name. -/
theorem settledAt_congr (env : String → EncodeBehavior) {w w' : World} (n : String)
    (h : vals w n = vals w' n) : settledAt env w n ↔ settledAt env w' n := by
  unfold settledAt
  rw [h]

/-- Processing a settled name changes no state at all. -/
theorem processFile_vals_of_settled (env : String → EncodeBehavior) (w : World)
    (n : String) (h : settledAt env w n) :
    ∀ m, vals (processFile env w n) m = vals w m := by
  intro m
  by_cases hm : m = n
  · subst hm
    rw [processFile_vals]
    exact h
  · exact processFile_vals_ne env w n m hm

/-- A batch over names that are all settled changes no state. -/
theorem runBatch_vals_of_settled (env : String → EncodeBehavior) :
    ∀ (ns : List String) (w : World), (∀ n ∈ ns, settledAt env w n) →
      ∀ m, vals (runBatch env ns w) m = vals w m := by
  intro ns
  induction ns with
  | nil => intro w _ m; rfl
  | cons a t ih =>
    intro w hset m
    have ha : settledAt env w a := hset a (List.mem_cons_self a t)
    have hid := processFile_vals_of_settled env w a ha
    have hset2 : ∀ n ∈ t, settledAt env (processFile env w a) n := by
      intro n hn
      exact (settledAt_congr env n (hid n)).mpr (hset n (List.mem_cons_of_mem a hn))
    calc vals (runBatch env (a :: t) w) m
        = vals (runBatch env t (processFile env w a)) m := rfl
      _ = vals (processFile env w a) m := ih (processFile env w a) hset2 m
      _ = vals w m := hid m

/-- A batch leaves the state of unlisted names unchanged. -/
theorem runBatch_vals_notMem (env : String → EncodeBehavior) :
    ∀ (ns : List String) (w : World) (n : String), n ∉ ns →
      vals (runBatch env ns w) n = vals w n := by
  intro ns
  induction ns with
  | nil => intro w n _; rfl
  | cons a t ih =>
    intro w n hn
    have hna : n ≠ a := fun h => hn (h ▸ List.mem_cons_self a t)
    have hnt : n ∉ t := fun h => hn (List.mem_cons_of_mem a h)
    calc vals (runBatch env (a :: t) w) n
        = vals (runBatch env t (processFile env w a)) n := rfl
      _ = vals (processFile env w a) n := ih _ n hnt
      _ = vals w n := processFile_vals_ne env w a n hna

/-- After a duplicate-free batch, every processed name is settled. -/
theorem runBatch_settled_of_mem (env : String → EncodeBehavior) :
    ∀ (ns : List String) (w : World), ns.Nodup → ∀ n ∈ ns,
      settledAt env (runBatch env ns w) n := by
  intro ns
  induction ns with
  | nil => intro w _ n hn; exact absurd hn (List.not_mem_nil n)
  | cons a t ih =>
    intro w hnd n hn
    obtain ⟨hat, ht⟩ := List.nodup_cons.mp hnd
    rcases List.mem_cons.mp hn with rfl | hnt
    · have h1 : settledAt env (processFile env w n) n := settledAt_processFile env w n
      have h2 : vals (runBatch env t (processFile env w n)) n
          = vals (processFile env w n) n := runBatch_vals_notMem env t _ n hat
      exact (settledAt_congr env n h2).mpr h1
    · exact ih (processFile env w a) ht n hnt

/-! ### Log and encoder-call lemmas for the batch loop -/

/-- `compress_video` never touches the log file. -/
theorem compress_video_logFile (env : String → EncodeBehavior) (n : String) (w : World) :
    (compress_video env n w).1.logFile = w.logFile := by
  cases hs : w.src n with
  | none => simp [compress_video, cleanupOnError, hs]
  | some b =>
    by_cases hk : w.skipArea n
    · simp [compress_video, hs, hk]
    · by_cases he : (env n).exitCode ≠ 0
      · simp [compress_video, cleanupOnError, hs, hk, he]
      · cases ho : (env n).outBytes with
        | none => simp [compress_video, cleanupOnError, hs, hk, he, ho]
        | some cb =>
          by_cases hbc : b ≤ cb
          · simp [compress_video, hs, hk, he, ho, hbc]
          · simp [compress_video, hs, hk, he, ho, hbc]

/-- A non-pre-skipped iteration appends exactly one data row, bearing the
display name and the returned skip flag. -/
theorem processFile_logFile (env : String → EncodeBehavior) (w : World) (n : String)
    (hk : w.skipArea n = false) :
    ∃ r : LogRow, r.filename = n ∧ r.skippedFlag = (compress_video env n w).2.skipped ∧
      (processFile env w n).logFile = appendEntry w.logFile (LogEntry.dataRow r) := by
  refine ⟨⟨n, round2 (compress_video env n w).2.orig,
    round2 (compress_video env n w).2.compr,
    round2 (if 0 < (compress_video env n w).2.orig then
      100 - (compress_video env n w).2.compr / (compress_video env n w).2.orig * 100
      else 0),
    (compress_video env n w).2.skipped⟩, rfl, rfl, ?_⟩
  simp [processFile, hk, log_to_csv, compress_video_logFile]

/-- One iteration appends to `encodeCalls` either nothing or the processed
name alone. -/
theorem processFile_calls (env : String → EncodeBehavior) (w : World) (n : String) :
    (processFile env w n).encodeCalls = w.encodeCalls
    ∨ (processFile env w n).encodeCalls = w.encodeCalls ++ [n] := by
  by_cases hk : w.skipArea n
  · left; simp [processFile, hk]
  · cases hs : w.src n with
    | none => left; simp [processFile, compress_video, cleanupOnError, log_to_csv, hk, hs]
    | some b =>
      by_cases he : (env n).exitCode ≠ 0
      · right
        simp [processFile, compress_video, cleanupOnError, log_to_csv, hk, hs, he]
      · cases ho : (env n).outBytes with
        | none =>
          right
          simp [processFile, compress_video, cleanupOnError, log_to_csv, hk, hs, he, ho]
        | some cb =>
          by_cases hbc : b ≤ cb
          · right
            simp [processFile, compress_video, log_to_csv, hk, hs, he, ho, hbc]
          · right
            simp [processFile, compress_video, log_to_csv, hk, hs, he, ho, hbc]

/-- A name resting in the skipped area stays there for a whole batch and is
never handed to the encoder. -/
theorem runBatch_skip_never_encoded (env : String → EncodeBehavior) :
    ∀ (ns : List String) (w : World) (n : String),
      w.skipArea n = true → n ∉ w.encodeCalls →
      (runBatch env ns w).skipArea n = true ∧ n ∉ (runBatch env ns w).encodeCalls := by
  intro ns
  induction ns with
  | nil => intro w n hk hc; exact ⟨hk, hc⟩
  | cons a t ih =>
    intro w n hk hc
    by_cases hna : n = a
    · subst hna
      have hid : processFile env w n = w := by simp [processFile, hk]
      have : runBatch env (n :: t) w = runBatch env t w := by
        show runBatch env t (processFile env w n) = runBatch env t w
        rw [hid]
      rw [this]
      exact ih w n hk hc
    · have hk' : (processFile env w a).skipArea n = true := by
        have h3 : (processFile env w a).skipArea n = w.skipArea n :=
          congrArg (fun p => p.2.2) (processFile_vals_ne env w a n hna)
        rw [h3]
        exact hk
      have hc' : n ∉ (processFile env w a).encodeCalls := by
        rcases processFile_calls env w a with h | h
        · rw [h]; exact hc
        · rw [h]
          intro hmem
          rcases List.mem_append.mp hmem with h1 | h2
          · exact hc h1
          · exact hna (List.mem_singleton.mp h2)
      exact ih (processFile env w a) n hk' hc'

/-- A batch only appends data rows to an existing log: the prior content
stays as a prefix and no header is added. -/
theorem runBatch_log_append (env : String → EncodeBehavior) :
    ∀ (ns : List String) (w : World) (l : List LogEntry), w.logFile = some l →
      ∃ rows : List LogRow,
        (runBatch env ns w).logFile = some (l ++ rows.map LogEntry.dataRow) := by
  intro ns
  induction ns with
  | nil => intro w l hl; exact ⟨[], by simpa using hl⟩
  | cons a t ih =>
    intro w l hl
    by_cases ha : w.skipArea a
    · have hid : processFile env w a = w := by simp [processFile, ha]
      obtain ⟨rows, hr⟩ := ih w l hl
      refine ⟨rows, ?_⟩
      show (runBatch env t (processFile env w a)).logFile = _
      rw [hid]
      exact hr
    · have hk : w.skipArea a = false := by
        revert ha; cases w.skipArea a <;> simp
      obtain ⟨r, _, _, hlog⟩ := processFile_logFile env w a hk
      have hl' : (processFile env w a).logFile = some (l ++ [LogEntry.dataRow r]) := by
        rw [hlog, hl]
        rfl
      obtain ⟨rows, hr⟩ := ih (processFile env w a) (l ++ [LogEntry.dataRow r]) hl'
      refine ⟨r :: rows, ?_⟩
      show (runBatch env t (processFile env w a)).logFile = _
      rw [hr]
      simp

/-- Appending data rows leaves the header count unchanged. -/
theorem countHeader_append_rows (l : List LogEntry) (rows : List LogRow) :
    countHeader (l ++ rows.map LogEntry.dataRow) = countHeader l := by
  unfold countHeader
  rw [List.countP_append]
  have hz : (rows.map LogEntry.dataRow).countP
      (fun e => match e with | LogEntry.headerRow => true | _ => false) = 0 := by
    induction rows with
    | nil => rfl
    | cons r t ih => simp [List.countP_cons, ih]
  rw [hz]
  exact Nat.add_zero _

/-- Iterated full batch runs against a log holding exactly one header keep
exactly one header. -/
theorem foldBatches_header (env : String → EncodeBehavior) :
    ∀ (batches : List (List String)) (w : World) (l : List LogEntry),
      w.logFile = some l → countHeader l = 1 →
      ∃ l2, (batches.foldl (fun ww ns => runBatchFull env ns ww) w).logFile = some l2
            ∧ countHeader l2 = 1 := by
  intro batches
  induction batches with
  | nil => intro w l hl hc; exact ⟨l, hl, hc⟩
  | cons ns rest ih =>
    intro w l hl hc
    have h1 : ({ w with logFile := init_log_file w.logFile } : World).logFile = some l := by
      simp [init_log_file, hl]
    obtain ⟨rows, hr⟩ := runBatch_log_append env (enumFiles ns w) _ l h1
    exact ih (runBatchFull env ns w) (l ++ rows.map LogEntry.dataRow) hr
      (by rw [countHeader_append_rows]; exact hc)

/-! ### Batch-level claims -/

/-- Claim C3: a file whose display name is already present in the skipped
area is never handed to the encoding step — the coordinator counts it as
skipped and touches nothing (first conjunct), `compress_video` itself (were
it called on such a file with its source present) returns the
already-processed skip with both sizes zero and no file-system effect
(second conjunct), such a name never enters the recorded encoder launches of
a whole batch (third conjunct) — and a second full batch run on the
post-run directory state leaves the skipped/compressed partition, and the
remaining sources, pointwise identical (fourth conjunct, idempotent
re-run). -/
theorem claim_C3 :
    (∀ (env : String → EncodeBehavior) (w : World) (n : String),
      w.skipArea n = true → processFile env w n = w)
    ∧ (∀ (env : String → EncodeBehavior) (w : World) (n : String) (b : Nat),
      w.src n = some b → w.skipArea n = true →
      compress_video env n w = (w, ⟨0, 0, true, Outcome.skippedAlready⟩))
    ∧ (∀ (env : String → EncodeBehavior) (names : List String) (w : World) (n : String),
      w.skipArea n = true → n ∉ w.encodeCalls →
      (runBatchFull env names w).skipArea n = true
      ∧ n ∉ (runBatchFull env names w).encodeCalls)
    ∧ (∀ (env : String → EncodeBehavior) (names : List String) (w : World),
      names.Nodup → ∀ m,
      (runBatchFull env names (runBatchFull env names w)).src m
          = (runBatchFull env names w).src m
      ∧ (runBatchFull env names (runBatchFull env names w)).dst m
          = (runBatchFull env names w).dst m
      ∧ (runBatchFull env names (runBatchFull env names w)).skipArea m
          = (runBatchFull env names w).skipArea m) := by
  refine ⟨?_, ?_, ?_, ?_⟩
  · intro env w n hk
    simp [processFile, hk]
  · intro env w n b hs hk
    simp [compress_video, hs, hk]
  · intro env names w n hk hc
    exact runBatch_skip_never_encoded env (enumFiles names w)
      { w with logFile := init_log_file w.logFile } n hk hc
  · intro env names w hnd m
    have hnd1 : (enumFiles names w).Nodup := hnd.filter _
    have hsub : ∀ n ∈ enumFiles names (runBatchFull env names w),
        n ∈ enumFiles names w := by
      intro n hn
      obtain ⟨hmem, hsome⟩ := List.mem_filter.mp hn
      by_contra hnot
      have hvals := runBatch_vals_notMem env (enumFiles names w)
        { w with logFile := init_log_file w.logFile } n hnot
      have hsrc : (runBatchFull env names w).src n = w.src n :=
        congrArg (fun p => p.1) hvals
      exact hnot (List.mem_filter.mpr ⟨hmem, by rw [← hsrc]; exact hsome⟩)
    have hset : ∀ n ∈ enumFiles names (runBatchFull env names w),
        settledAt env (runBatchFull env names w) n := fun n hn =>
      runBatch_settled_of_mem env (enumFiles names w)
        { w with logFile := init_log_file w.logFile } hnd1 n (hsub n hn)
    have hfin := runBatch_vals_of_settled env
      (enumFiles names (runBatchFull env names w))
      { runBatchFull env names w with
          logFile := init_log_file (runBatchFull env names w).logFile }
      (fun n hn => hset n hn) m
    exact ⟨congrArg (fun p => p.1) hfin, congrArg (fun p => p.2.1) hfin,
      congrArg (fun p => p.2.2) hfin⟩

/-- Claim C3 witness: the coordinator skip and the already-processed return
of `compress_video` on a concrete world whose name sits in the skipped
area. -/
theorem claim_C3_w :
    processFile envEff wSkip "a.mp4" = wSkip
    ∧ compress_video envEff "a.mp4" wSkip = (wSkip, ⟨0, 0, true, Outcome.skippedAlready⟩) :=
  ⟨claim_C3.1 envEff wSkip "a.mp4" rfl,
   claim_C3.2.1 envEff wSkip "a.mp4" 3145728 rfl rfl⟩

/-- Claim C4 (the failure the code actually has, plus the handler behaviour
that holds once control reaches it): the claim — every per-file error is
caught, converted into a failure outcome plus a log entry, and the loop
proceeds — fails on the code.  A job whose external process exits non-zero
after writing a diagnostic stream with no `Duration:` line (first conjunct,
the loop evaluated on such a concrete ended stream) leaves the duration-scan
loop running forever for every iteration bound, before the exit-status
check, the `except` handlers and the logging are ever reached, so that
encode error is never caught, never logged, and the loop never proceeds to
the next file.  For a job whose duration scan does exit, the handlers behave
as claimed: every error condition is converted into the failure outcome with
`skipped = True` plus exactly one appended log row bearing the display name
(second conjunct), and the coordinator loop always continues from any
iteration to the remaining files (third conjunct). -/
theorem claim_C4 :
    (∀ fuel i, durationScanAux
        ["input.mp4: Invalid data found when processing input"] i fuel = none)
    ∧ (∀ (env : String → EncodeBehavior) (w : World) (n : String),
      w.skipArea n = false → errorCondition env w n →
      (compress_video env n w).2.outcome = Outcome.failed
      ∧ (compress_video env n w).2.skipped = true
      ∧ ∃ r : LogRow, r.filename = n ∧ r.skippedFlag = true
          ∧ (processFile env w n).logFile = appendEntry w.logFile (LogEntry.dataRow r))
    ∧ (∀ (env : String → EncodeBehavior) (w : World) (n : String) (rest : List String),
      runBatch env (n :: rest) w = runBatch env rest (processFile env w n)) := by
  refine ⟨?_, ?_, ?_⟩
  · intro fuel i
    exact durationScan_no_marker _ (by decide) fuel i
  · intro env w n hk herr
    have hout : (compress_video env n w).2.outcome = Outcome.failed
        ∧ (compress_video env n w).2.skipped = true := by
      rcases herr with hs | he | hio
      · simp [compress_video, hs]
      · cases hs : w.src n with
        | none => simp [compress_video, hs]
        | some b => simp [compress_video, hs, hk, he]
      · cases hs : w.src n with
        | none => simp [compress_video, hs]
        | some b => simp [compress_video, hs, hk, hio.1, hio.2]
    obtain ⟨r, hrn, hrs, hlog⟩ := processFile_logFile env w n hk
    exact ⟨hout.1, hout.2, r, hrn, by rw [hrs]; exact hout.2, hlog⟩
  · intro env w n rest
    rfl

/-- Claim C4 witness: the handler-conversion conjunct evaluated on a
concrete job whose encoder exits with status 1. -/
theorem claim_C4_w :
    (compress_video envFail "a.mp4" wEff).2.outcome = Outcome.failed
    ∧ (compress_video envFail "a.mp4" wEff).2.skipped = true
    ∧ ∃ r : LogRow, r.filename = "a.mp4" ∧ r.skippedFlag = true
        ∧ (processFile envFail wEff "a.mp4").logFile
            = appendEntry wEff.logFile (LogEntry.dataRow r) :=
  claim_C4.2.1 envFail wEff "a.mp4" rfl (Or.inr (Or.inl (by decide)))

/-- Claim C9: log initialisation writes the fixed header row only when the
log file is absent (first conjunct) and never truncates an existing log
(second conjunct); every full batch run only appends data rows after the
existing content (third conjunct); and across any positive number of batch
runs started with no log file the header appears exactly once (fourth
conjunct). -/
theorem claim_C9 :
    init_log_file none = some [LogEntry.headerRow]
    ∧ (∀ l, init_log_file (some l) = some l)
    ∧ (∀ (env : String → EncodeBehavior) (names : List String) (w : World)
        (l : List LogEntry), w.logFile = some l →
        ∃ rows : List LogRow,
          (runBatchFull env names w).logFile = some (l ++ rows.map LogEntry.dataRow))
    ∧ (∀ (env : String → EncodeBehavior) (batches : List (List String)) (w : World),
        w.logFile = none → batches ≠ [] →
        ∃ l, (batches.foldl (fun ww ns => runBatchFull env ns ww) w).logFile = some l
             ∧ countHeader l = 1) := by
  refine ⟨rfl, fun l => rfl, ?_, ?_⟩
  · intro env names w l hl
    exact runBatch_log_append env (enumFiles names w) _ l (by simp [init_log_file, hl])
  · intro env batches w hl hb
    cases batches with
    | nil => exact absurd rfl hb
    | cons ns rest =>
      have h1 : ({ w with logFile := init_log_file w.logFile } : World).logFile
          = some [LogEntry.headerRow] := by
        simp [init_log_file, hl]
      obtain ⟨rows, hr⟩ := runBatch_log_append env (enumFiles ns w) _ _ h1
      exact foldBatches_header env rest (runBatchFull env ns w) _ hr
        (by rw [countHeader_append_rows]; rfl)

/-- Claim C9 witness: the append-only statement evaluated on a concrete world
whose log already holds the header. -/
theorem claim_C9_w :
    ∃ rows : List LogRow,
      (runBatchFull envEff ["a.mp4"] wEff).logFile
        = some ([LogEntry.headerRow] ++ rows.map LogEntry.dataRow) :=
  claim_C9.2.2.1 envEff ["a.mp4"] wEff [LogEntry.headerRow] rfl
